import Mathlib

/-!
Shallow embedding of the gomoku-ai repository (gomoku-core, gomoku-agent)
and verification of the frozen claims about its specification.

Modelling conventions:
- Rust `usize` values are modelled as `Nat`; where release-mode wrapping
  arithmetic is observable (the parser's `- 1` on an unsigned zero and the
  positional letter accumulation) we reduce modulo `2 ^ 64` explicitly.
- Rust panics (`unwrap`, slice indexing) are modelled as `Except.error ()`.
- Floating point rewards / Q-values are modelled as `ℚ`; the claims settled
  here concern the structure of the computations, not rounding.
- The external tch-rs network is modelled as an opaque-to-the-claims function
  from a frame history and an action index to a score, exactly as the claims
  quantify over "every per-move score vector produced by the model".
-/

namespace Gomoku

/-- Decidable equality for `Except`, used to evaluate the embedded fallible
operations on concrete inputs. -/
instance {ε α : Type} [DecidableEq ε] [DecidableEq α] : DecidableEq (Except ε α) := fun a b =>
  match a, b with
  | .ok a, .ok b =>
    if h : a = b then .isTrue (congrArg _ h) else .isFalse (fun hh => h (Except.ok.inj hh))
  | .ok _, .error _ => .isFalse (fun hh => Except.noConfusion hh)
  | .error _, .ok _ => .isFalse (fun hh => Except.noConfusion hh)
  | .error a, .error b =>
    if h : a = b then .isTrue (congrArg _ h) else .isFalse (fun hh => h (Except.error.inj hh))

/-- `Cell` from gomoku-core/src/board.rs. -/
inductive Cell
| empty
| black
| white
deriving DecidableEq

/-- `Cell::is_empty`. -/
def Cell.is_empty : Cell → Bool
| .empty => true
| _ => false

/-- `Turn` from gomoku-core/src/game.rs. -/
inductive Turn
| black
| white
deriving DecidableEq

/-- `Turn::next`. -/
def Turn.next : Turn → Turn
| .black => .white
| .white => .black

/-- `impl From<Turn> for Cell`. -/
def Turn.toCell : Turn → Cell
| .black => Cell.black
| .white => Cell.white

/-- `GameResult` from gomoku-core/src/game.rs. -/
inductive GameResult
| draw
| win (t : Turn)
deriving DecidableEq

/-- `Board` from gomoku-core/src/board.rs: a size and a flat row-major cell vector. -/
structure Board where
  board_size : Nat
  cells : List Cell
deriving DecidableEq

/-- `Board::new`. -/
def Board.new (board_size : Nat) : Board :=
  { board_size := board_size, cells := List.replicate (board_size * board_size) Cell.empty }

/-- `Board::legal_moves`: ascending indices of empty cells. -/
def Board.legal_moves (b : Board) : List Nat :=
  b.cells.enum.filterMap (fun p => if p.2.is_empty then some p.1 else none)

/-- `Board::illegal_moves`: ascending indices of non-empty cells. -/
def Board.illegal_moves (b : Board) : List Nat :=
  b.cells.enum.filterMap (fun p => if p.2.is_empty then none else some p.1)

/-- `Board::get_cell` (`Vec::get`, bounds-checked). -/
def Board.get_cell (b : Board) (index : Nat) : Option Cell :=
  b.cells.get? index

/-- `Board::set_cell` (`self.cells[index] = cell`; only ever called in-bounds). -/
def Board.set_cell (b : Board) (index : Nat) (cell : Cell) : Board :=
  { b with cells := b.cells.set index cell }

/-- `Board::count_consecutive_cells_in_direction`: walk from `(x, y)` in steps of
`(x_delta, y_delta)` counting contiguous cells equal to `cell`.  The Rust `while`
loop runs at most `board_size` iterations (the moving coordinate takes distinct
in-bounds values), so fuel `board_size` reproduces it exactly. -/
def Board.count_dir (b : Board) : Nat → Int → Int → Cell → Int → Int → Nat
| 0, _, _, _, _, _ => 0
| fuel + 1, x, y, cell, dx, dy =>
  if 0 ≤ x ∧ x < (b.board_size : Int) ∧ 0 ≤ y ∧ y < (b.board_size : Int) then
    let index := (y * (b.board_size : Int) + x).toNat
    if b.cells.getD index Cell.empty ≠ cell then 0
    else 1 + b.count_dir fuel (x + dx) (y + dy) cell dx dy
  else 0

/-- Trailing-pop loop at the end of `count_consecutive_cells`: repeatedly drop the
last element while it is `< 2`. -/
def popSmall (l : List Nat) : List Nat :=
  (l.reverse.dropWhile (fun a => decide (a < 2))).reverse

/-- `Board::count_consecutive_cells`: the four axis run lengths through `index`
for `turn`'s colour, sorted descending, entries `< 2` dropped. -/
def Board.count_consecutive_cells (b : Board) (index : Nat) (turn : Turn) : List Nat :=
  match b.cells.get? index with
  | none => []
  | some cell =>
    if cell ≠ turn.toCell then []
    else
      let x : Int := ((index % b.board_size : Nat) : Int)
      let y : Int := ((index / b.board_size : Nat) : Int)
      let fuel := b.board_size
      let results : List Nat :=
        [ 1 + b.count_dir fuel (x + 1) y cell 1 0 + b.count_dir fuel (x - 1) y cell (-1) 0,
          1 + b.count_dir fuel x (y + 1) cell 0 1 + b.count_dir fuel x (y - 1) cell 0 (-1),
          1 + b.count_dir fuel (x + 1) (y - 1) cell 1 (-1) + b.count_dir fuel (x - 1) (y + 1) cell (-1) 1,
          1 + b.count_dir fuel (x + 1) (y + 1) cell 1 1 + b.count_dir fuel (x - 1) (y - 1) cell (-1) (-1) ]
      popSmall (results.insertionSort (· ≥ ·))

/-- `Game` from gomoku-core/src/game.rs. -/
structure Game where
  board_size : Nat
  max_consecutive_stones : Nat
  turn : Turn
  turn_count : Nat
  history : List (Turn × Board)
  game_result : Option GameResult
  board : Board
deriving DecidableEq

/-- `Game::new`. -/
def Game.new (board_size max_consecutive_stones : Nat) : Game :=
  { board_size := board_size
    max_consecutive_stones := max_consecutive_stones
    turn := Turn.black
    turn_count := 0
    history := [(Turn.black, Board.new board_size)]
    game_result := none
    board := Board.new board_size }

/-- `PlaceStoneResult` from gomoku-core/src/game.rs. -/
structure PlaceStoneResult where
  index : Nat
  stone : Cell
  turn_was : Turn
  board_was : Board
  consecutive_stones : List Nat
  game_result : Option GameResult
deriving DecidableEq

/-- `PlaceStoneError` from gomoku-core/src/game.rs. -/
inductive PlaceStoneError
| invalidIndex (index : Nat) (max_allowed_index : Nat)
| stoneAlreadyPlaced (index : Nat) (stone : Cell)
deriving DecidableEq

/-- `Game::place_stone`.  The Rust method mutates `&mut self`; the embedding
returns the updated game together with the `Result` value.  Error paths return
the game unchanged, exactly as the Rust early returns leave `self` untouched. -/
def Game.place_stone (g : Game) (index : Nat) :
    Game × Except PlaceStoneError PlaceStoneResult :=
  let max_allowed_index := g.board.board_size * g.board.board_size
  match g.board.get_cell index with
  | none => (g, Except.error (PlaceStoneError.invalidIndex index max_allowed_index))
  | some cell =>
    if ¬cell.is_empty then
      (g, Except.error (PlaceStoneError.stoneAlreadyPlaced index cell))
    else
      let board_was := g.board
      let board := g.board.set_cell index g.turn.toCell
      let consecutive_stones := board.count_consecutive_cells index g.turn
      let is_winning_move := consecutive_stones.head? = some g.max_consecutive_stones
      let turn_was := g.turn
      let turn := turn_was.next
      let turn_count := g.turn_count + 1
      let game_result :=
        if is_winning_move then some (GameResult.win turn_was)
        else if turn_count = max_allowed_index then some GameResult.draw
        else g.game_result
      let g' : Game :=
        { g with
          board := board
          turn := turn
          turn_count := turn_count
          game_result := game_result
          history := g.history ++ [(turn, board)] }
      (g',
        Except.ok
          { index := index
            stone := turn.toCell
            turn_was := turn_was
            board_was := board_was
            consecutive_stones := consecutive_stones
            game_result := game_result })

/-- Fold a sequence of placements, keeping the mutated game (ignoring results),
as the drivers in gomoku-cli-pvp and the replay generator do. -/
def play (g : Game) (moves : List Nat) : Game :=
  moves.foldl (fun g i => (g.place_stone i).1) g

/-- A small concrete game used to instantiate theorems: size 3, win length 3. -/
def g33 : Game := Game.new 3 3

/-- A concrete in-progress position: Black at 0 and 1, White at 3 and 4,
Black to move.  Placing Black at 2 completes a run of exactly 3. -/
def g33mid : Game := play g33 [0, 3, 1, 4]

/-- Claim C1: on an in-progress game, a successful `place_stone` declares
`Win(mover)` exactly when the first (largest) entry of the run-length list
through the placed stone equals the configured `max_consecutive_stones`
threshold; in particular a strictly longer run does not declare a win. -/
theorem C1_win_iff_exact_threshold (g : Game) (i : Nat)
    (hprog : g.game_result = none)
    (he : g.board.get_cell i = some Cell.empty) :
    ((g.place_stone i).1.game_result = some (GameResult.win g.turn)) ↔
      ((g.board.set_cell i g.turn.toCell).count_consecutive_cells i g.turn).head?
        = some g.max_consecutive_stones := by
  simp only [Game.place_stone, he]
  simp only [Cell.is_empty, not_true_eq_false, if_false]
  split_ifs with h1 h2 <;>
    simp_all [hprog]

/-- Witness for C1: in `g33mid` (in progress, cell 2 empty), placing Black at 2
wins, and the largest run equals the threshold 3. -/
theorem C1_witness :
    g33mid.game_result = none ∧
    g33mid.board.get_cell 2 = some Cell.empty ∧
    (((g33mid.place_stone 2).1.game_result = some (GameResult.win g33mid.turn)) ↔
      ((g33mid.board.set_cell 2 g33mid.turn.toCell).count_consecutive_cells 2 g33mid.turn).head?
        = some g33mid.max_consecutive_stones) :=
  ⟨by decide, by decide, C1_win_iff_exact_threshold g33mid 2 (by decide) (by decide)⟩

/-- Claim C7: `place_stone` fails with `InvalidIndex` (carrying
`max_allowed_index = size²`) iff the index is out of range, fails with
`StoneAlreadyPlaced` (carrying the occupying colour) iff the index is in range
and the target cell is non-empty, and every error leaves the game unchanged.
The hypothesis `hlen` records the Rust `Board` representation invariant
(`cells.len() == board_size²`), guaranteed by field privacy. -/
theorem C7_place_stone_errors (g : Game) (i : Nat)
    (hlen : g.board.cells.length = g.board.board_size * g.board.board_size) :
    ((g.place_stone i).2 =
        Except.error (PlaceStoneError.invalidIndex i (g.board.board_size * g.board.board_size)) ↔
      g.board.board_size * g.board.board_size ≤ i) ∧
    (∀ c : Cell,
      (g.place_stone i).2 = Except.error (PlaceStoneError.stoneAlreadyPlaced i c) ↔
        (i < g.board.board_size * g.board.board_size ∧
          g.board.get_cell i = some c ∧ c ≠ Cell.empty)) ∧
    (∀ e : PlaceStoneError, (g.place_stone i).2 = Except.error e → (g.place_stone i).1 = g) := by
  rcases hcell : g.board.get_cell i with _ | c
  · have hge : g.board.board_size * g.board.board_size ≤ i := by
      have := List.get?_eq_none.mp hcell
      omega
    refine ⟨?_, ?_, ?_⟩
    · simp [Game.place_stone, hcell, hge]
    · intro c
      simp only [Game.place_stone, hcell]
      constructor
      · intro h
        exact absurd (Except.error.inj h) (by simp)
      · intro h
        omega
    · intro e
      simp [Game.place_stone, hcell]
  · have hlt : i < g.board.board_size * g.board.board_size := by
      have hne : ¬ g.board.cells.length ≤ i := by
        intro hle
        have hcell' : g.board.cells.get? i = some c := hcell
        rw [List.get?_eq_none.mpr hle] at hcell'
        exact Option.noConfusion hcell'
      omega
    by_cases hc : c = Cell.empty
    · subst hc
      refine ⟨?_, ?_, ?_⟩
      · constructor
        · intro h
          exfalso
          simp [Game.place_stone, hcell, Cell.is_empty] at h
        · intro h
          exact absurd h (by omega)
      · intro c'
        constructor
        · intro h
          exfalso
          simp [Game.place_stone, hcell, Cell.is_empty] at h
        · rintro ⟨-, h2, h3⟩
          exact absurd (Option.some.inj h2).symm h3
      · intro e h
        exfalso
        simp [Game.place_stone, hcell, Cell.is_empty] at h
    · have hne : ¬ c.is_empty = true := by
        cases c <;> simp_all [Cell.is_empty]
      refine ⟨?_, ?_, ?_⟩
      · simp only [Game.place_stone, hcell]
        rw [if_pos (by simpa using hne)]
        constructor
        · intro h
          exact absurd (Except.error.inj h) (by simp)
        · intro h
          exact absurd h (by omega)
      · intro c'
        simp only [Game.place_stone, hcell]
        rw [if_pos (by simpa using hne)]
        constructor
        · intro h
          have h3 : c = c' := (PlaceStoneError.stoneAlreadyPlaced.inj (Except.error.inj h)).2
          subst h3
          exact ⟨hlt, rfl, hc⟩
        · rintro ⟨-, h2, -⟩
          cases Option.some.inj h2
          rfl
      · intro e
        simp only [Game.place_stone, hcell]
        rw [if_pos (by simpa using hne)]
        intro
        rfl

/-- Witness for C7 at a concrete out-of-range index on `g33`. -/
theorem C7_witness :
    g33.board.cells.length = g33.board.board_size * g33.board.board_size ∧
    (((g33.place_stone 9).2 =
        Except.error (PlaceStoneError.invalidIndex 9 (g33.board.board_size * g33.board.board_size)) ↔
      g33.board.board_size * g33.board.board_size ≤ 9) ∧
    (∀ c : Cell,
      (g33.place_stone 9).2 = Except.error (PlaceStoneError.stoneAlreadyPlaced 9 c) ↔
        (9 < g33.board.board_size * g33.board.board_size ∧
          g33.board.get_cell 9 = some c ∧ c ≠ Cell.empty)) ∧
    (∀ e : PlaceStoneError, (g33.place_stone 9).2 = Except.error e → (g33.place_stone 9).1 = g33)) :=
  ⟨by decide, C7_place_stone_errors g33 9 (by decide)⟩

/-- Claim C9 evidence: `place_stone` fills the cell with the mover's colour
(Black here), but the returned `stone` field is evaluated after the turn has
advanced, so it reports the opponent's colour (White), contradicting the claim
that `stone` equals the colour just placed. -/
theorem C9_stone_field_is_next_turn :
    ((g33.place_stone 0).2.toOption.map PlaceStoneResult.stone = some Cell.white) ∧
    ((g33.place_stone 0).1.board.get_cell 0 = some Cell.black) ∧
    ((g33.place_stone 0).2.toOption.map PlaceStoneResult.turn_was = some Turn.black) := by
  decide

/-! ### Coordinate parser (gomoku-core/src/board/index_parser.rs)

`usize` arithmetic: Rust release builds wrap unsigned arithmetic modulo
`2 ^ 64`; `str::parse::<usize>` detects overflow and returns `Err`, which
`number_to_index` `unwrap`s — a panic, modelled as `Except.error ()`.
Division by zero also panics in every build.  Parser state is the remaining
character list (the `Peekable<Chars>`). -/

/-- `usize::MAX + 1` on the 64-bit targets the crate builds for. -/
def usizeMod : Nat := 2 ^ 64

/-- `char::is_ascii_alphabetic`. -/
def isAsciiAlphabetic (c : Char) : Bool :=
  (97 ≤ c.toNat && c.toNat ≤ 122) || (65 ≤ c.toNat && c.toNat ≤ 90)

/-- `char::to_ascii_lowercase`. -/
def toAsciiLowercase (c : Char) : Char :=
  if 65 ≤ c.toNat && c.toNat ≤ 90 then Char.ofNat (c.toNat + 32) else c

/-- `char::is_ascii_digit`. -/
def isAsciiDigit (c : Char) : Bool :=
  48 ≤ c.toNat && c.toNat ≤ 57

/-- `Index` from index_parser.rs. -/
structure Index where
  row : Nat
  column : Nat
deriving DecidableEq

/-- `Index::is_valid`. -/
def Index.is_valid (i : Index) (size : Nat) : Bool :=
  decide (i.row < size) && decide (i.column < size)

/-- `Index::to_index`. -/
def Index.to_index (i : Index) (size : Nat) : Nat :=
  i.row * size + i.column

/-- `IndexParser::skip_whitespace`. -/
def skip_whitespace (s : List Char) : List Char :=
  s.dropWhile Char.isWhitespace

/-- `IndexParser::read_alpha`: take a nonempty run of ASCII letters, lowercased. -/
def read_alpha (s : List Char) : Option (List Char) × List Char :=
  let alpha := (s.takeWhile isAsciiAlphabetic).map toAsciiLowercase
  (if alpha.isEmpty then none else some alpha, s.dropWhile isAsciiAlphabetic)

/-- `IndexParser::read_number`: take a nonempty run of ASCII digits. -/
def read_number (s : List Char) : Option (List Char) × List Char :=
  let number := s.takeWhile isAsciiDigit
  (if number.isEmpty then none else some number, s.dropWhile isAsciiDigit)

/-- `alpha_to_index`: positional base-26 accumulation with wrapping `usize`
multiplication/addition. -/
def alpha_to_index (l : List Char) : Nat :=
  l.foldl (fun acc c => (acc * 26 + (c.toNat - 97)) % usizeMod) 0

/-- `number_to_index`: `number.parse::<usize>().unwrap()` — the parse fails on
overflow and the `unwrap` panics. -/
def number_to_index (l : List Char) : Except Unit Nat :=
  let v := l.foldl (fun acc c => acc * 10 + (c.toNat - 48)) 0
  if v < usizeMod then Except.ok v else Except.error ()

/-- Release-mode wrapping `n - 1` on `usize` (the parser's 1-indexed to
0-indexed conversion). -/
def wrapping_sub_one (n : Nat) : Nat :=
  (n + (usizeMod - 1)) % usizeMod

/-- `IndexParser::parse_pattern_alpha_number`. -/
def parse_pattern_alpha_number (size : Nat) (alpha s : List Char) :
    Except Unit (Option Index) := do
  let s := skip_whitespace s
  match read_number s with
  | (none, _) => return none
  | (some number, s) =>
    let s := skip_whitespace s
    if ¬s.isEmpty then return none
    else
      let alpha_index := alpha_to_index alpha
      let nn ← number_to_index number
      let number_index := wrapping_sub_one nn
      let index : Index := { row := number_index, column := alpha_index }
      if index.is_valid size then return some index else return none

/-- `IndexParser::parse_pattern_number_alpha`. -/
def parse_pattern_number_alpha (size : Nat) (number alpha s : List Char) :
    Except Unit (Option Index) := do
  let s := skip_whitespace s
  if ¬s.isEmpty then return none
  else
    let nn ← number_to_index number
    let number_index := wrapping_sub_one nn
    let alpha_index := alpha_to_index alpha
    let index : Index := { row := number_index, column := alpha_index }
    if index.is_valid size then return some index else return none

/-- `IndexParser::parse_pattern_number_number`. -/
def parse_pattern_number_number (size : Nat) (number second_number s : List Char) :
    Except Unit (Option Index) := do
  let s := skip_whitespace s
  if ¬s.isEmpty then return none
  else
    let nn ← number_to_index number
    let number_index := wrapping_sub_one nn
    let nn2 ← number_to_index second_number
    let second_number_index := wrapping_sub_one nn2
    let index : Index := { row := second_number_index, column := number_index }
    if index.is_valid size then return some index else return none

/-- `IndexParser::parse_pattern_number` (single number as 1-indexed linear
index; `usize` division by zero panics when `size = 0`). -/
def parse_pattern_number (size : Nat) (number s : List Char) :
    Except Unit (Option Index) := do
  let s := skip_whitespace s
  if ¬s.isEmpty then return none
  else
    let nn ← number_to_index number
    let number_index := wrapping_sub_one nn
    if size = 0 then Except.error ()
    else
      let index : Index := { row := number_index / size, column := number_index % size }
      if index.is_valid size then return some index else return none

/-- `IndexParser::parse`. -/
def parse (size : Nat) (s : List Char) : Except Unit (Option Index) :=
  let s := skip_whitespace s
  match read_alpha s with
  | (some alpha, s) => parse_pattern_alpha_number size alpha s
  | (none, s) =>
    match read_number s with
    | (some number, s) =>
      let s1 := skip_whitespace s
      match read_alpha s1 with
      | (some alpha, s2) => parse_pattern_number_alpha size number alpha s2
      | (none, s2) =>
        match read_number s2 with
        | (some n2, s3) => parse_pattern_number_number size number n2 s3
        | (none, s3) => if s3.isEmpty then parse_pattern_number size number s3 else Except.ok none
    | (none, _) => Except.ok none

/-- `Board::parse_index` (size is the board's size). -/
def parse_index (size : Nat) (s : List Char) : Except Unit (Option Nat) := do
  let r ← parse size s
  match r with
  | none => return none
  | some idx => return some (idx.to_index size)

/-- The letter-emitting loop in `Board::index_to_position`, fuelled so that it
reduces structurally: each iteration divides `x` by 26, so `x + 1` steps always
suffice and the fuel never runs out. -/
def alpha_chars_go : Nat → Nat → List Char
| 0, _ => []
| fuel + 1, x =>
  let c := Char.ofNat (65 + x % 26)
  let x' := x / 26
  if x' = 0 then [c] else c :: alpha_chars_go fuel x'

/-- The letter-emitting loop in `Board::index_to_position`: pushes the
least-significant base-26 letter first. -/
def alpha_chars (x : Nat) : List Char :=
  alpha_chars_go (x + 1) x

/-- `Board::index_to_position`. -/
def index_to_position (size index : Nat) : Option (List Char) :=
  if size * size ≤ index then none
  else
    let x := index % size
    let y := index / size
    some (alpha_chars x ++ Nat.toDigits 10 (y + 1))

example : parse 15 "a1".toList = Except.ok (some { row := 0, column := 0 }) := by decide
example : parse 15 "  1  1  ".toList = Except.ok (some { row := 0, column := 0 }) := by decide
example : parse 15 "225".toList = Except.ok (some { row := 14, column := 14 }) := by decide
example : parse 15 "hello, world! 15a".toList = Except.ok none := by decide
example : parse 15 "15 1 15".toList = Except.ok none := by decide
example : parse 15 "0".toList = Except.ok none := by decide

/-- Claim C5 evidence: a digit run exceeding `usize::MAX` makes
`number_to_index`'s `unwrap` panic, so coordinate parsing is not total:
`parse_index` hits the panic (modelled `Except.error`) instead of returning
"no match".  `18446744073709551616 = 2^64`. -/
theorem C5_parse_panics_on_usize_overflow :
    parse_index 15 "18446744073709551616".toList = Except.error () ∧
    number_to_index "18446744073709551616".toList = Except.error () := by
  constructor <;> decide

lemma except_bind_ok {α β : Type} (a : α) (f : α → Except Unit β) :
    (Except.ok a : Except Unit α) >>= f = f a := rfl

lemma except_pure {α : Type} (a : α) : (pure a : Except Unit α) = Except.ok a := rfl

lemma skip_whitespace_nil : skip_whitespace [] = [] := rfl

lemma takeWhile_cons_pos {p : Char → Bool} {a : Char} {l : List Char} (h : p a = true) :
    (a :: l).takeWhile p = a :: l.takeWhile p := by
  simp [List.takeWhile, h]

lemma dropWhile_cons_pos {p : Char → Bool} {a : Char} {l : List Char} (h : p a = true) :
    (a :: l).dropWhile p = l.dropWhile p := by
  simp [List.dropWhile, h]

lemma dropWhile_cons_neg {p : Char → Bool} {a : Char} {l : List Char} (h : p a = false) :
    (a :: l).dropWhile p = a :: l := by
  simp [List.dropWhile, h]

/-- The single column letter emitted for `x < 26` and its parsing facts. -/
lemma letter_facts : ∀ x < 26,
    alpha_chars x = [Char.ofNat (65 + x)] ∧
    isAsciiAlphabetic (Char.ofNat (65 + x)) = true ∧
    (Char.ofNat (65 + x)).isWhitespace = false ∧
    alpha_to_index [toAsciiLowercase (Char.ofNat (65 + x))] = x := by
  decide

/-- The decimal digits of the 1-indexed row `y + 1` for `y < 26` and their
parsing facts. -/
lemma digit_facts : ∀ y < 26,
    (Nat.toDigits 10 (y + 1)).takeWhile isAsciiAlphabetic = [] ∧
    (Nat.toDigits 10 (y + 1)).dropWhile isAsciiAlphabetic = Nat.toDigits 10 (y + 1) ∧
    skip_whitespace (Nat.toDigits 10 (y + 1)) = Nat.toDigits 10 (y + 1) ∧
    read_number (Nat.toDigits 10 (y + 1)) = (some (Nat.toDigits 10 (y + 1)), []) ∧
    number_to_index (Nat.toDigits 10 (y + 1)) = Except.ok (y + 1) ∧
    wrapping_sub_one (y + 1) = y := by
  decide

/-- Parsing a single column letter followed by the decimal row number yields
exactly that coordinate (the letter-then-number grammar pattern). -/
lemma parse_letter_digits {x y size : Nat} (hx : x < 26) (hy : y < 26)
    (hxs : x < size) (hys : y < size) :
    parse size (alpha_chars x ++ Nat.toDigits 10 (y + 1)) =
      Except.ok (some { row := y, column := x }) := by
  obtain ⟨hA, hAalpha, hAws, hAval⟩ := letter_facts x hx
  obtain ⟨hD1, hD2, hD3, hD4, hD5, hD6⟩ := digit_facts y hy
  rw [hA]
  have hws : skip_whitespace (Char.ofNat (65 + x) :: Nat.toDigits 10 (y + 1)) =
      Char.ofNat (65 + x) :: Nat.toDigits 10 (y + 1) := by
    rw [skip_whitespace]
    exact dropWhile_cons_neg hAws
  have hra : read_alpha (Char.ofNat (65 + x) :: Nat.toDigits 10 (y + 1)) =
      (some [toAsciiLowercase (Char.ofNat (65 + x))], Nat.toDigits 10 (y + 1)) := by
    rw [read_alpha, takeWhile_cons_pos hAalpha, hD1, dropWhile_cons_pos hAalpha, hD2]
    rfl
  have hsingle : [Char.ofNat (65 + x)] ++ Nat.toDigits 10 (y + 1) =
      Char.ofNat (65 + x) :: Nat.toDigits 10 (y + 1) := rfl
  rw [hsingle]
  simp only [parse, hws, hra, parse_pattern_alpha_number, hD3, hD4, skip_whitespace_nil,
    List.isEmpty_nil, not_true_eq_false, if_false, hD5, except_bind_ok, hD6, hAval,
    except_pure]
  have hv : Index.is_valid { row := y, column := x } size = true := by
    simp [Index.is_valid, hys, hxs]
  rw [if_pos hv]

/-- Claim C6 (amended): `parse_index ∘ index_to_position` round-trips for every
board size `N ≤ 26` and every index `i < N²`.  For `N > 26` the round trip
fails because `index_to_position` emits multi-letter columns least-significant
letter first while `alpha_to_index` accumulates most-significant first. -/
theorem C6_roundtrip_size_le_26 (size i : Nat) (h1 : size ≤ 26) (h2 : i < size * size) :
    (index_to_position size i).map (parse_index size) = some (Except.ok (some i)) := by
  have hpos : 0 < size := by
    rcases Nat.eq_zero_or_pos size with h | h
    · subst h
      exact absurd h2 (by simp)
    · exact h
  have hx : i % size < size := Nat.mod_lt _ hpos
  have hy : i / size < size := by
    rw [Nat.div_lt_iff_lt_mul hpos]
    exact h2
  have hfmt : index_to_position size i =
      some (alpha_chars (i % size) ++ Nat.toDigits 10 (i / size + 1)) := by
    rw [index_to_position, if_neg (by omega)]
  have hparse := parse_letter_digits (lt_of_lt_of_le hx h1) (lt_of_lt_of_le hy h1) hx hy
  rw [hfmt]
  simp only [Option.map, parse_index, hparse, except_bind_ok, Index.to_index, except_pure]
  have hi : i / size * size + i % size = i := by
    rw [Nat.mul_comm]
    exact Nat.div_add_mod i size
  rw [hi]

/-- Witness for C6 on the 15×15 board at index 37 (`index_to_position` gives
"H3", which parses back to 37). -/
theorem C6_roundtrip_witness :
    (index_to_position 15 37).map (parse_index 15) = some (Except.ok (some 37)) :=
  C6_roundtrip_size_le_26 15 37 (by omega) (by omega)

/-- Counterexample to C6 as stated: on a 27×27 board, index 26 formats to
"AB1" (letters emitted least-significant first) but "AB" parses
most-significant first to column 1, so the round trip returns 1, not 26. -/
theorem C6_roundtrip_counterexample :
    index_to_position 27 26 = some ['A', 'B', '1'] ∧
    parse_index 27 ['A', 'B', '1'] = Except.ok (some 1) ∧ (1 : Nat) ≠ 26 := by
  refine ⟨by decide, by decide, by decide⟩

/-! ### Replay generation (gomoku-agent/src/replay.rs)

Sources of randomness and the external estimator are passed explicitly as
`Oracles`, mirroring the `rng`/`agent` values threaded through
`sample_replay`: `coin` is the colour `gen_bool(0.5)` coin flip on reset,
`explore` is the `gen_bool(epsilon)` Bernoulli draw, `random_move` is the
uniform choice among legal moves, `agent_move` is `Agent::next_move`'s
unwrapped answer.  The `unwrap`s in the Rust code are modelled as
`Except Unit`. -/

/-- `ReplayStep` from replay.rs (the fixed-size arrays of frames are lists;
`generate_history_boards` always produces 4 entries). -/
structure ReplayStep where
  turn : Turn
  action : Nat
  boards : List (Turn × Board)
  next_boards : Option (List (Turn × Board))
  game_result : Option GameResult
  reward : ℚ
deriving DecidableEq

/-- `Opponent` from replay.rs. -/
inductive Opponent
| random
| self_play
deriving DecidableEq

/-- Explicit sources for the randomness and the external estimator consumed by
`sample_replay`. -/
structure Oracles where
  coin : Turn
  explore : Bool
  random_move : Game → Nat
  agent_move : Game → Nat

/-- `generate_history_boards`: up to the 4 most recent history snapshots whose
recorded turn equals `player` (collected most-recent first by the reversed
iterator), then empty boards inserted at the front until there are 4. -/
def generate_history_boards (player : Turn) (g : Game) : List (Turn × Board) :=
  let boards := ((g.history.reverse.filter (fun tb => decide (tb.1 = player))).take 4).map
    (fun tb => (player, tb.2))
  List.replicate (4 - boards.length) (player, Board.new g.board_size) ++ boards

/-- `RandomPlayer::generate_move`: `legal_moves.choose(rng).copied().unwrap()`
panics exactly when there is no legal move. -/
def random_player_move (o : Oracles) (g : Game) : Except Unit Nat :=
  if (g.board.legal_moves).isEmpty then Except.error () else Except.ok (o.random_move g)

/-- Opponent move dispatch inside `sample_replay` (`Opponent::Random` uses
`RandomPlayer`, `Opponent::SelfPlay` uses the estimator). -/
def opponent_move (o : Oracles) (opponent : Opponent) (g : Game) : Except Unit Nat :=
  match opponent with
  | .random => random_player_move o g
  | .self_play => Except.ok (o.agent_move g)

/-- `game.place_stone(action).unwrap()`. -/
def place_or_panic (g : Game) (i : Nat) : Except Unit (Game × PlaceStoneResult) :=
  match g.place_stone i with
  | (g', Except.ok r) => Except.ok (g', r)
  | (_, Except.error _) => Except.error ()

/-- The `(3..=5).contains` / `(4..=5).contains` guards on an optional first
run-length entry. -/
def in_range_bonus (o : Option Nat) (lo hi : Nat) : Bool :=
  match o with
  | some n => decide (lo ≤ n) && decide (n ≤ hi)
  | none => false

/-- `compute_nonterminal_reward` from replay.rs. -/
def compute_nonterminal_reward (result : PlaceStoneResult) : ℚ :=
  if in_range_bonus result.consecutive_stones.head? 3 5 then 1
  else
    let virtual_board := result.board_was.set_cell result.index result.turn_was.next.toCell
    let opponent_consecutive_stones :=
      virtual_board.count_consecutive_cells result.index result.turn_was.next
    if in_range_bonus opponent_consecutive_stones.head? 4 5 then 1 else 0

/-- The reset stage of `sample_replay`: start a new game (re-randomizing the
learner's colour) if the current game is finished. -/
def reset_stage (game : Game) (agent_turn : Turn) (o : Oracles) : Game × Turn :=
  if game.game_result.isSome then
    (Game.new game.board_size game.max_consecutive_stones, o.coin)
  else (game, agent_turn)

/-- The opponent pre-move stage of `sample_replay`: let the opponent play if it
is not the agent's turn.  Panics (`Except.error`) propagate. -/
def premove_stage (o : Oracles) (opponent : Opponent) (agent_turn : Turn) (game : Game) :
    Except Unit Game :=
  if game.turn ≠ agent_turn then
    match opponent_move o opponent game with
    | Except.error e => Except.error e
    | Except.ok action =>
      match place_or_panic game action with
      | Except.error e => Except.error e
      | Except.ok gr => Except.ok gr.1
  else Except.ok game

/-- The agent's epsilon-greedy action choice in `sample_replay`:
`1e-4 < epsilon && rng.gen_bool(epsilon)` explores uniformly among legal
moves, otherwise the estimator moves.  The Bernoulli draw is the oracle bit
`o.explore`; the guard is the conjunction of that draw with the
`1e-4 < epsilon` threshold test, written draw-first (the conjunction is
commutative — Rust short-circuits the threshold first only to avoid an
unnecessary RNG call). -/
def choose_agent_action (o : Oracles) (epsilon : ℚ) (game : Game) : Except Unit Nat :=
  if o.explore = true ∧ (1 / 10000 : ℚ) < epsilon then
    if (game.board.legal_moves).isEmpty then Except.error ()
    else Except.ok (o.random_move game)
  else Except.ok (o.agent_move game)

/-- `sample_replay` from replay.rs. -/
def sample_replay (game0 : Game) (agent_turn0 : Turn) (o : Oracles) (opponent : Opponent)
    (epsilon : ℚ) : Except Unit (Game × Turn × ReplayStep) :=
  let ra := reset_stage game0 agent_turn0 o
  let game := ra.1
  let agent_turn := ra.2
  match premove_stage o opponent agent_turn game with
  | Except.error e => Except.error e
  | Except.ok game =>
    let boards := generate_history_boards agent_turn game
    match choose_agent_action o epsilon game with
    | Except.error e => Except.error e
    | Except.ok agent_action =>
      match place_or_panic game agent_action with
      | Except.error e => Except.error e
      | Except.ok (game, result_after_agent) =>
        if result_after_agent.game_result.isSome then
          Except.ok (game, agent_turn,
            { turn := result_after_agent.turn_was
              action := agent_action
              boards := boards
              next_boards := none
              game_result := result_after_agent.game_result
              reward := 100 })
        else
          match opponent_move o opponent game with
          | Except.error e => Except.error e
          | Except.ok opponent_action =>
            match place_or_panic game opponent_action with
            | Except.error e => Except.error e
            | Except.ok (game, result_after_opponent) =>
              if result_after_opponent.game_result.isSome then
                Except.ok (game, agent_turn,
                  { turn := result_after_opponent.turn_was
                    action := opponent_action
                    boards := boards
                    next_boards := none
                    game_result := result_after_opponent.game_result
                    reward := -100 })
              else
                let reward := compute_nonterminal_reward result_after_agent
                let next_boards := some (generate_history_boards game.turn game)
                Except.ok (game, agent_turn,
                  { turn := result_after_agent.turn_was
                    action := agent_action
                    boards := boards
                    next_boards := next_boards
                    game_result := result_after_agent.game_result
                    reward := reward })

/-- Field equations of a successful `place_stone`, shared by several proofs. -/
lemma place_stone_ok_fields {g : Game} {i : Nat} {g' : Game} {r : PlaceStoneResult}
    (h : g.place_stone i = (g', Except.ok r)) :
    r.turn_was = g.turn ∧ r.index = i ∧ r.board_was = g.board ∧
    r.consecutive_stones =
      (g.board.set_cell i g.turn.toCell).count_consecutive_cells i g.turn ∧
    r.game_result = g'.game_result ∧ g'.turn = g.turn.next := by
  rcases hcell : g.board.get_cell i with _ | c
  · exfalso
    simp [Game.place_stone, hcell] at h
  · by_cases hc : c = Cell.empty
    · subst hc
      simp only [Game.place_stone, hcell, Cell.is_empty, not_true_eq_false, if_false,
        Prod.mk.injEq] at h
      obtain ⟨hg', hr⟩ := h
      have hr' := Except.ok.inj hr
      subst hg'
      subst hr'
      simp
    · exfalso
      have hne : ¬ c.is_empty = true := by
        cases c <;> simp_all [Cell.is_empty]
      simp only [Game.place_stone, hcell] at h
      rw [if_pos (by simpa using hne)] at h
      exact Except.noConfusion (congrArg Prod.snd h)

/-- Inversion for `place_or_panic`: success means `place_stone` succeeded with
exactly those components. -/
lemma place_or_panic_ok {g : Game} {i : Nat} {p : Game × PlaceStoneResult}
    (h : place_or_panic g i = Except.ok p) :
    g.place_stone i = (p.1, Except.ok p.2) := by
  rcases hps : g.place_stone i with ⟨gg, rr⟩
  rcases rr with e | r
  · simp only [place_or_panic, hps] at h
    exact Except.noConfusion h
  · simp only [place_or_panic, hps] at h
    cases Except.ok.inj h
    rfl

/-- After a successful pre-move stage the side to move is the agent. -/
lemma premove_stage_turn {o : Oracles} {opponent : Opponent} {agent_turn : Turn}
    {g g' : Game} (h : premove_stage o opponent agent_turn g = Except.ok g') :
    g'.turn = agent_turn := by
  by_cases ht : g.turn = agent_turn
  · simp only [premove_stage] at h
    rw [if_neg (by simp [ht])] at h
    exact (Except.ok.inj h) ▸ ht
  · simp only [premove_stage] at h
    rw [if_pos ht] at h
    rcases ha : opponent_move o opponent g with e | a
    · simp only [ha] at h
      exact Except.noConfusion h
    · simp only [ha] at h
      rcases hp : place_or_panic g a with e | p
      · simp only [hp] at h
        exact Except.noConfusion h
      · simp only [hp] at h
        have hps := place_or_panic_ok hp
        have h2 := (place_stone_ok_fields hps).2.2.2.2.2
        cases Except.ok.inj h
        rw [h2]
        cases hgt : g.turn <;> cases agent_turn <;> simp_all [Turn.next]

/-- Claim C3 (amended): when the learner's move leaves the game in progress and
the opponent's reply ends it, `sample_replay` emits a `ReplayStep` whose `turn`
is the OPPONENT's identity (the learner's successor) and whose `action` is the
OPPONENT's terminal move, with reward −100, no "next" frames, and the terminal
`GameResult` attached. -/
theorem C3_opponent_terminal_step (g0 : Game) (t0 : Turn) (o : Oracles) (opponent : Opponent)
    (epsilon : ℚ) (g1 : Game) (agent_turn : Turn) (g2 : Game) (a1 : Nat)
    (g3 : Game) (r1 : PlaceStoneResult) (a2 : Nat) (g4 : Game) (r2 : PlaceStoneResult)
    (res : GameResult)
    (hreset : reset_stage g0 t0 o = (g1, agent_turn))
    (hpre : premove_stage o opponent agent_turn g1 = Except.ok g2)
    (hact : choose_agent_action o epsilon g2 = Except.ok a1)
    (hag : g2.place_stone a1 = (g3, Except.ok r1))
    (hnont : r1.game_result = none)
    (hopp : opponent_move o opponent g3 = Except.ok a2)
    (hop : g3.place_stone a2 = (g4, Except.ok r2))
    (hterm : r2.game_result = some res) :
    sample_replay g0 t0 o opponent epsilon =
      Except.ok (g4, agent_turn,
        { turn := r2.turn_was
          action := a2
          boards := generate_history_boards agent_turn g2
          next_boards := none
          game_result := some res
          reward := -100 }) ∧
    r2.turn_was = agent_turn.next ∧ r2.turn_was ≠ agent_turn := by
  have hw1 : r2.turn_was = g3.turn := (place_stone_ok_fields hop).1
  have hw2 : g3.turn = g2.turn.next := (place_stone_ok_fields hag).2.2.2.2.2
  have hw3 : g2.turn = agent_turn := premove_stage_turn hpre
  have hpp1 : place_or_panic g2 a1 = Except.ok (g3, r1) := by
    simp only [place_or_panic, hag]
  have hpp2 : place_or_panic g3 a2 = Except.ok (g4, r2) := by
    simp only [place_or_panic, hop]
  refine ⟨?_, ?_, ?_⟩
  · simp only [sample_replay, hreset, hpre, hact, hpp1, hnont, hopp, hpp2, hterm,
      Option.isSome_none, Option.isSome_some, Bool.false_eq_true, if_false, if_true]
  · rw [hw1, hw2, hw3]
  · rw [hw1, hw2, hw3]
    cases agent_turn <;> simp [Turn.next]

/-- Oracles for the concrete C3 scenario: the agent plays 8, the random
opponent plays 5. -/
def oC3 : Oracles :=
  { coin := Turn.black, explore := false, random_move := fun _ => 5, agent_move := fun _ => 8 }

/-- Counterexample to C3 as stated: in `g33mid` (Black = learner to move,
Black at {0, 1}, White at {3, 4}), the learner plays 8 (game continues), the
opponent replies 5 and wins.  The emitted step carries `turn = White` — the
opponent, not the learner Black — and `action = 5`, the opponent's move, not
the learner's move 8. -/
theorem C3_counterexample :
    sample_replay g33mid Turn.black oC3 Opponent.random 0 =
      Except.ok (((g33mid.place_stone 8).1.place_stone 5).1, Turn.black,
        { turn := Turn.white
          action := 5
          boards := generate_history_boards Turn.black g33mid
          next_boards := none
          game_result := some (GameResult.win Turn.white)
          reward := -100 }) ∧
    Turn.white ≠ Turn.black ∧ (5 : Nat) ≠ 8 := by
  decide

/-- Witness for the amended C3 at the concrete scenario. -/
theorem C3_witness :
    sample_replay g33mid Turn.black oC3 Opponent.random 0 =
      Except.ok (((g33mid.place_stone 8).1.place_stone 5).1, Turn.black,
        { turn := Turn.white
          action := 5
          boards := generate_history_boards Turn.black g33mid
          next_boards := none
          game_result := some (GameResult.win Turn.white)
          reward := -100 }) ∧
    Turn.white = Turn.black.next ∧ Turn.white ≠ Turn.black := by
  have h := C3_opponent_terminal_step g33mid Turn.black oC3 Opponent.random 0
    g33mid Turn.black g33mid 8 (g33mid.place_stone 8).1 _ 5
    ((g33mid.place_stone 8).1.place_stone 5).1 _ (GameResult.win Turn.white)
    (by decide) (by decide) (by decide) rfl (by decide) (by decide) rfl (by decide)
  exact h

/-- The non-terminal reward rule stated over the game position, as the spec
words it: +1 when the learner's best run length from its move (on the post-move
board) is in [3, 5]; otherwise +1 when hypothetically placing the opponent's
colour at the same index on the pre-move board yields a best run in [4, 5];
otherwise 0.  Offensive check first; at most one bonus; the probe is a pure
function of the pre-move board. -/
def spec_nonterminal_reward (pre : Board) (mover : Turn) (i : Nat) : ℚ :=
  if in_range_bonus ((pre.set_cell i mover.toCell).count_consecutive_cells i mover).head? 3 5
  then 1
  else if in_range_bonus
      (((pre.set_cell i mover.next.toCell).count_consecutive_cells i mover.next).head?) 4 5
  then 1
  else 0

/-- Claim C8: on the non-terminal path (neither the learner's move nor the
opponent's reply ended the game), the emitted `ReplayStep` carries exactly the
spec's shaped reward — offensive [3,5] bonus first, else the defensive [4,5]
probe on a copy of the pre-move board, else 0 — computed from the learner's
pre-move board `g2.board`, the learner's colour `g2.turn` and the learner's
action `a1`; the real board is untouched by the probe. -/
theorem C8_nonterminal_reward (g0 : Game) (t0 : Turn) (o : Oracles) (opponent : Opponent)
    (epsilon : ℚ) (g1 : Game) (agent_turn : Turn) (g2 : Game) (a1 : Nat)
    (g3 : Game) (r1 : PlaceStoneResult) (a2 : Nat) (g4 : Game) (r2 : PlaceStoneResult)
    (hreset : reset_stage g0 t0 o = (g1, agent_turn))
    (hpre : premove_stage o opponent agent_turn g1 = Except.ok g2)
    (hact : choose_agent_action o epsilon g2 = Except.ok a1)
    (hag : g2.place_stone a1 = (g3, Except.ok r1))
    (hnont : r1.game_result = none)
    (hopp : opponent_move o opponent g3 = Except.ok a2)
    (hop : g3.place_stone a2 = (g4, Except.ok r2))
    (hnont2 : r2.game_result = none) :
    sample_replay g0 t0 o opponent epsilon =
      Except.ok (g4, agent_turn,
        { turn := r1.turn_was
          action := a1
          boards := generate_history_boards agent_turn g2
          next_boards := some (generate_history_boards g4.turn g4)
          game_result := none
          reward := spec_nonterminal_reward g2.board g2.turn a1 }) := by
  have hpp1 : place_or_panic g2 a1 = Except.ok (g3, r1) := by
    simp only [place_or_panic, hag]
  have hpp2 : place_or_panic g3 a2 = Except.ok (g4, r2) := by
    simp only [place_or_panic, hop]
  have hrw : compute_nonterminal_reward r1 = spec_nonterminal_reward g2.board g2.turn a1 := by
    obtain ⟨ht, hi, hb, hc, -, -⟩ := place_stone_ok_fields hag
    simp only [compute_nonterminal_reward, spec_nonterminal_reward, ht, hi, hb, hc]
  simp only [sample_replay, hreset, hpre, hact, hpp1, hnont, hopp, hpp2, hnont2,
    Option.isSome_none, Bool.false_eq_true, if_false, hrw]

/-- Oracles for the concrete C8 scenario: the agent plays the centre 4, the
random opponent replies 0. -/
def oC8 : Oracles :=
  { coin := Turn.black, explore := false, random_move := fun _ => 0, agent_move := fun _ => 4 }

/-- Witness for C8 at a concrete non-terminal transition from the fresh 3×3
game (both computed rewards are 0 here: no run reaches 3). -/
theorem C8_witness :
    sample_replay g33 Turn.black oC8 Opponent.random 0 =
      Except.ok (((g33.place_stone 4).1.place_stone 0).1, Turn.black,
        { turn := Turn.black
          action := 4
          boards := generate_history_boards Turn.black g33
          next_boards := some (generate_history_boards
            ((g33.place_stone 4).1.place_stone 0).1.turn ((g33.place_stone 4).1.place_stone 0).1)
          game_result := none
          reward := spec_nonterminal_reward g33.board g33.turn 4 }) := by
  have h := C8_nonterminal_reward g33 Turn.black oC8 Opponent.random 0
    g33 Turn.black g33 4 (g33.place_stone 4).1 _ 0
    ((g33.place_stone 4).1.place_stone 0).1 _
    (by decide) (by decide) (by decide) rfl (by decide) (by decide) rfl (by decide)
  exact h

/-! ### Reachability invariant (claim C10) -/

/-- Games reachable from `Game::new` by successful `place_stone` calls. -/
inductive Reachable : Game → Prop
| new (board_size max_consecutive_stones : Nat) :
    Reachable (Game.new board_size max_consecutive_stones)
| step {g : Game} {i : Nat} {g' : Game} {r : PlaceStoneResult} :
    Reachable g → g.place_stone i = (g', Except.ok r) → Reachable g'

/-- State equations of a successful `place_stone`, complementing
`place_stone_ok_fields`. -/
lemma place_stone_ok_state {g : Game} {i : Nat} {g' : Game} {r : PlaceStoneResult}
    (h : g.place_stone i = (g', Except.ok r)) :
    g.board.get_cell i = some Cell.empty ∧
    g'.board = g.board.set_cell i g.turn.toCell ∧
    g'.turn_count = g.turn_count + 1 ∧
    g'.board_size = g.board_size ∧
    g'.max_consecutive_stones = g.max_consecutive_stones ∧
    g'.game_result =
      (if ((g.board.set_cell i g.turn.toCell).count_consecutive_cells i g.turn).head?
          = some g.max_consecutive_stones then some (GameResult.win g.turn)
       else if g.turn_count + 1 = g.board.board_size * g.board.board_size then
         some GameResult.draw
       else g.game_result) := by
  rcases hcell : g.board.get_cell i with _ | c
  · exfalso
    simp [Game.place_stone, hcell] at h
  · by_cases hc : c = Cell.empty
    · subst hc
      simp only [Game.place_stone, hcell, Cell.is_empty, not_true_eq_false, if_false,
        Prod.mk.injEq] at h
      obtain ⟨hg', -⟩ := h
      subst hg'
      exact ⟨rfl, rfl, rfl, rfl, rfl, rfl⟩
    · exfalso
      have hne : ¬ c.is_empty = true := by
        cases c <;> simp_all [Cell.is_empty]
      simp only [Game.place_stone, hcell] at h
      rw [if_pos (by simpa using hne)] at h
      exact Except.noConfusion (congrArg Prod.snd h)

lemma countP_replicate_empty (n : Nat) :
    (List.replicate n Cell.empty).countP Cell.is_empty = n := by
  induction n with
  | zero => rfl
  | succ k ih => simp [List.replicate_succ, List.countP_cons, ih, Cell.is_empty]

lemma countP_set_empty :
    ∀ (l : List Cell) (i : Nat) (c : Cell), l.get? i = some Cell.empty →
      c.is_empty = false → (l.set i c).countP Cell.is_empty + 1 = l.countP Cell.is_empty := by
  intro l
  induction l with
  | nil =>
    intro i c h _
    exact absurd h (by simp)
  | cons a t ih =>
    intro i c h hc
    cases i with
    | zero =>
      have ha : a = Cell.empty := Option.some.inj h
      subst ha
      simp [List.set, List.countP_cons, hc]
      decide
    | succ j =>
      have h' : t.get? j = some Cell.empty := h
      have := ih j c h' hc
      simp only [List.set, List.countP_cons]
      omega

lemma length_legal_moves_aux :
    ∀ (l : List Cell) (n : Nat),
      ((List.enumFrom n l).filterMap
        (fun p => if p.2.is_empty then some p.1 else none)).length = l.countP Cell.is_empty := by
  intro l
  induction l with
  | nil => intro n; rfl
  | cons a t ih =>
    intro n
    cases ha : a.is_empty <;>
      simp [List.enumFrom, List.filterMap_cons, ha, List.countP_cons, ih]

/-- The legal-move list has exactly one entry per empty cell. -/
lemma length_legal_moves (b : Board) :
    b.legal_moves.length = b.cells.countP Cell.is_empty := by
  have h := length_legal_moves_aux b.cells 0
  simpa [Board.legal_moves, List.enum] using h

/-- The representation invariant preserved by `place_stone` along reachable
games: the board matches the game's size, empty cells and the move count
partition the board, and an in-progress game's move count is never `size²`
except in the initial state. -/
lemma reachable_invariant {g : Game} (hg : Reachable g) :
    g.board.board_size = g.board_size ∧
    g.board.cells.length = g.board_size * g.board_size ∧
    g.board.cells.countP Cell.is_empty + g.turn_count = g.board_size * g.board_size ∧
    (g.game_result = none → g.turn_count ≠ g.board_size * g.board_size ∨ g.turn_count = 0) := by
  induction hg with
  | new n k =>
    refine ⟨rfl, by simp [Game.new, Board.new], ?_, fun _ => Or.inr rfl⟩
    simp [Game.new, Board.new, countP_replicate_empty]
  | step hr hps ih =>
    rename_i g i g' r
    obtain ⟨ih1, ih2, ih3, ih4⟩ := ih
    obtain ⟨hcell, hboard, htc, hbs, hmax, hres⟩ := place_stone_ok_state hps
    have hcne : (Turn.toCell g.turn).is_empty = false := by
      cases g.turn <;> rfl
    have hcount := countP_set_empty g.board.cells i (Turn.toCell g.turn) hcell hcne
    refine ⟨?_, ?_, ?_, ?_⟩
    · rw [hboard, hbs]
      exact ih1
    · rw [hboard, hbs]
      simp only [Board.set_cell, List.length_set]
      exact ih2
    · rw [hboard, htc, hbs]
      simp only [Board.set_cell]
      generalize hk : g.board_size * g.board_size = k at ih3 ⊢
      omega
    · intro hnone
      rw [hres] at hnone
      by_cases hwin :
          ((g.board.set_cell i g.turn.toCell).count_consecutive_cells i g.turn).head?
            = some g.max_consecutive_stones
      · rw [if_pos hwin] at hnone
        exact absurd hnone (by simp)
      · rw [if_neg hwin] at hnone
        by_cases hdraw : g.turn_count + 1 = g.board.board_size * g.board.board_size
        · rw [if_pos hdraw] at hnone
          exact absurd hnone (by simp)
        · left
          rw [htc, hbs]
          rw [ih1] at hdraw
          exact hdraw

/-- Claim C10 (amended to positive board sizes): every game reachable from
`Game::new` with `board_size ≥ 1` that is still in progress has
`turn_count < size²` and a non-empty legal-move list, so the uniform-random
move choice (`legal_moves.choose(..).unwrap()`) cannot panic on it. -/
theorem C10_inprogress_has_legal_moves (g : Game) (hr : Reachable g)
    (hpos : 1 ≤ g.board_size) (hprog : g.game_result = none) :
    g.turn_count < g.board_size * g.board_size ∧
    g.board.legal_moves ≠ [] ∧
    ∀ o : Oracles, random_player_move o g = Except.ok (o.random_move g) := by
  obtain ⟨-, -, h3, h4⟩ := reachable_invariant hr
  have hsq : 1 ≤ g.board_size * g.board_size := by
    have := Nat.mul_le_mul hpos hpos
    simpa using this
  have htc : g.turn_count < g.board_size * g.board_size := by
    generalize hk : g.board_size * g.board_size = k at h3 h4 hsq ⊢
    rcases h4 hprog with h | h <;> omega
  have hcp : 0 < g.board.cells.countP Cell.is_empty := by
    generalize hk : g.board_size * g.board_size = k at h3 htc ⊢
    omega
  have hlen : 0 < g.board.legal_moves.length := by
    rw [length_legal_moves]
    exact hcp
  refine ⟨htc, List.length_pos.mp hlen, ?_⟩
  intro o
  rcases hlm : g.board.legal_moves with _ | ⟨x, xs⟩
  · rw [hlm] at hlen
    exact absurd hlen (by simp)
  · simp [random_player_move, hlm]

/-- Counterexample to C10 as stated: the degenerate `Game::new(0, 5)` is
reachable (zero moves), in progress (`game_result = none`), yet has an empty
legal-move list and `turn_count = 0 = size²`. -/
theorem C10_counterexample :
    Reachable (Game.new 0 5) ∧ (Game.new 0 5).game_result = none ∧
    (Game.new 0 5).board.legal_moves = [] ∧
    ¬ (Game.new 0 5).turn_count < (Game.new 0 5).board_size * (Game.new 0 5).board_size :=
  ⟨Reachable.new 0 5, by decide, by decide, by decide⟩

/-- The 3×3 game after Black's first stone at 0 — a reachable, in-progress
position. -/
def g33b0 : Game := (g33.place_stone 0).1

/-- Witness for C10 at `g33b0`. -/
theorem C10_witness :
    1 ≤ g33b0.board_size ∧ g33b0.game_result = none ∧
    (g33b0.turn_count < g33b0.board_size * g33b0.board_size ∧
     g33b0.board.legal_moves ≠ [] ∧
     ∀ o : Oracles, random_player_move o g33b0 = Except.ok (o.random_move g33b0)) :=
  ⟨by decide, by decide,
    C10_inprogress_has_legal_moves g33b0
      (@Reachable.step (Game.new 3 3) 0 g33b0 _ (Reachable.new 3 3) rfl)
      (by decide) (by decide)⟩

/-! ### TD-target computation (gomoku-agent/src/agents/gomoku_ddqn/trainer.rs)
and move selection (agent.rs)

The external tch-rs models are represented as functions from an encoded
4-frame history to a per-action Q score (`Net`); the claims quantify over
every score vector the model may produce.  `f64::total_cmp`-based `max_by`
keeps the LAST maximal element; `Tensor::argmax` yields the FIRST maximal
position. -/

/-- A value estimator: Q score per action index for an encoded frame stack. -/
def Net : Type := List (Turn × Board) → Nat → ℚ

/-- One fold step of `Iterator::max_by`: replace the accumulator whenever the
new element is not smaller (so ties keep the later element). -/
def maxByLastStep (acc : Option (Nat × ℚ)) (p : Nat × ℚ) : Option (Nat × ℚ) :=
  match acc with
  | none => some p
  | some q => if q.2 ≤ p.2 then some p else some q

/-- `pairs.iter().max_by(|(_, lhs), (_, rhs)| f64::total_cmp(lhs, rhs))`. -/
def maxByLast (l : List (Nat × ℚ)) : Option (Nat × ℚ) :=
  l.foldl maxByLastStep none

lemma maxByLast_go_spec :
    ∀ (l : List (Nat × ℚ)) (a : Nat × ℚ),
      ∃ p, l.foldl maxByLastStep (some a) = some p ∧ (p = a ∨ p ∈ l) ∧ a.2 ≤ p.2 ∧
        ∀ q ∈ l, q.2 ≤ p.2 := by
  intro l
  induction l with
  | nil =>
    intro a
    exact ⟨a, rfl, Or.inl rfl, le_refl _, by simp⟩
  | cons x t ih =>
    intro a
    by_cases hle : a.2 ≤ x.2
    · obtain ⟨p, h1, h2, h3, h4⟩ := ih x
      refine ⟨p, ?_, ?_, le_trans hle h3, ?_⟩
      · simpa only [List.foldl, maxByLastStep, if_pos hle] using h1
      · rcases h2 with h | h
        · exact Or.inr (h ▸ List.mem_cons_self x t)
        · exact Or.inr (List.mem_cons_of_mem x h)
      · intro q hq
        rcases List.mem_cons.mp hq with h | h
        · exact h ▸ h3
        · exact h4 q h
    · obtain ⟨p, h1, h2, h3, h4⟩ := ih a
      refine ⟨p, ?_, ?_, h3, ?_⟩
      · simpa only [List.foldl, maxByLastStep, if_neg hle] using h1
      · rcases h2 with h | h
        · exact Or.inl h
        · exact Or.inr (List.mem_cons_of_mem x h)
      · intro q hq
        rcases List.mem_cons.mp hq with h | h
        · exact h ▸ le_trans (le_of_not_le hle) h3
        · exact h4 q h

/-- `max_by` returns an element of the list that dominates every entry's
score. -/
lemma maxByLast_eq_some {l : List (Nat × ℚ)} {p : Nat × ℚ} (h : maxByLast l = some p) :
    p ∈ l ∧ ∀ q ∈ l, q.2 ≤ p.2 := by
  cases l with
  | nil => exact absurd h (by simp [maxByLast])
  | cons x t =>
    obtain ⟨p', h1, h2, h3, h4⟩ := maxByLast_go_spec t x
    have hp' : p' = p := by
      have : maxByLast (x :: t) = some p' := by
        simpa only [maxByLast, List.foldl, maxByLastStep] using h1
      exact Option.some.inj (this.symm.trans h)
    subst hp'
    refine ⟨?_, ?_⟩
    · rcases h2 with h | h
      · exact h ▸ List.mem_cons_self x t
      · exact List.mem_cons_of_mem x h
    · intro q hq
      rcases List.mem_cons.mp hq with h | h
      · exact h ▸ h3
      · exact h4 q h

/-- The per-transition action selection inside `loss::compute_td_target`: the
Q-values come from the "next" frames (falling back to the "before" frames when
absent), but the legal-move filter reads `step.boards.last()` — the last board
of the BEFORE frames.  `.last().unwrap()` and `.max_by(..).unwrap()` are the
panics modelled by `Except.error`. -/
def selected_action (agent : Net) (step : ReplayStep) : Except Unit Nat :=
  let next_boards := step.next_boards.getD step.boards
  match step.boards.getLast? with
  | none => Except.error ()
  | some tb =>
    match maxByLast (tb.2.legal_moves.map
        (fun action => (action, agent next_boards action))) with
    | none => Except.error ()
    | some best => Except.ok best.1

/-- `loss::compute_td_target`, per batch element:
`r + (1 - is_done) * gamma * target_q`. -/
def compute_td_target (agent target : Net) (gamma : ℚ) (step : ReplayStep) : Except Unit ℚ :=
  match selected_action agent step with
  | Except.error e => Except.error e
  | Except.ok best_action =>
    let next_boards := step.next_boards.getD step.boards
    let target_q := target next_boards best_action
    let is_done : ℚ := if step.game_result.isSome then 1 else 0
    Except.ok (step.reward + (1 - is_done) * gamma * target_q)

/-- Modelled from the spec (§4.6), for comparison with `selected_action`: the
arg-max action is taken over the legal moves of the "next" frames themselves
(the "before" frames only when "next" is absent); the spec's frame convention
(§4.4) is most-recent last, so the next state's board is the last frame. -/
def spec_selected_action (agent : Net) (step : ReplayStep) : Except Unit Nat :=
  let next_boards := step.next_boards.getD step.boards
  match next_boards.getLast? with
  | none => Except.error ()
  | some tb =>
    match maxByLast (tb.2.legal_moves.map
        (fun action => (action, agent next_boards action))) with
    | none => Except.error ()
    | some best => Except.ok best.1

/-- Claim C2 (amended): the double-Q target equals
`reward + (1 − done)·gamma·targetQ(selected)` with `done = 1` iff a terminal
`GameResult` is attached, but the selected action is the arg-max of the online
net's next-frame Q-values over the legal moves of the LAST BOARD OF THE
"BEFORE" FRAMES (`step.boards.last()`), not of the next frames. -/
theorem C2_td_target_formula (agent target : Net) (gamma : ℚ) (step : ReplayStep)
    (tb : Turn × Board) (a : Nat)
    (hlast : step.boards.getLast? = some tb)
    (hsel : selected_action agent step = Except.ok a) :
    a ∈ tb.2.legal_moves ∧
    (∀ m ∈ tb.2.legal_moves,
      agent (step.next_boards.getD step.boards) m ≤
        agent (step.next_boards.getD step.boards) a) ∧
    compute_td_target agent target gamma step =
      Except.ok (step.reward +
        (1 - (if step.game_result.isSome then (1 : ℚ) else 0)) * gamma *
          target (step.next_boards.getD step.boards) a) := by
  have hsel' := hsel
  simp only [selected_action, hlast] at hsel'
  rcases hmb : maxByLast (tb.2.legal_moves.map
      (fun action => (action, agent (step.next_boards.getD step.boards) action))) with _ | best
  · rw [hmb] at hsel'
    exact absurd hsel' (by simp)
  · rw [hmb] at hsel'
    have hba : best.1 = a := Except.ok.inj hsel'
    obtain ⟨hmem, hmax⟩ := maxByLast_eq_some hmb
    obtain ⟨m, hm, hpair⟩ := List.mem_map.mp hmem
    have hm1 : a = m := by
      rw [← hba, ← hpair]
    have hm2 : best.2 = agent (step.next_boards.getD step.boards) a := by
      rw [← hpair, hm1]
    refine ⟨hm1 ▸ hm, ?_, ?_⟩
    · intro m' hm'
      have := hmax (m', agent (step.next_boards.getD step.boards) m')
        (List.mem_map.mpr ⟨m', hm', rfl⟩)
      rw [hm2] at this
      exact this
    · simp only [compute_td_target, hsel]

/-- The 4×4 game (win length 99 so nothing terminates early) after eight
alternating stones on rows 0 and 1: Black at {0,2,4,6}, White at {1,3,5,7},
Black (the learner) to move with five same-colour history frames recorded. -/
def gC2 : Game := play (Game.new 4 99) [0, 1, 2, 3, 4, 5, 6, 7]

/-- Oracles for the concrete C2 scenario: the learner plays 8, the random
opponent replies 9 (both non-terminal). -/
def oC2 : Oracles :=
  { coin := Turn.black, explore := false, random_move := fun _ => 9, agent_move := fun _ => 8 }

/-- The `ReplayStep` actually produced by `sample_replay` in the C2 scenario
(the fallback record is unreachable). -/
def stepC2 : ReplayStep :=
  match sample_replay gC2 Turn.black oC2 Opponent.random 0 with
  | Except.ok x => x.2.2
  | Except.error _ =>
    { turn := Turn.black, action := 0, boards := [], next_boards := none,
      game_result := none, reward := 0 }

/-- Online net for the C2 scenario: action 2 scores highest, action 15 next. -/
def netC2a : Net := fun _ a => if a = 2 then 100 else if a = 15 then 50 else 1

/-- Target net for the C2 scenario (only evaluated symbolically). -/
def netC2t : Net := fun _ a => if a = 2 then 7 else 3

/-- Counterexample to C2 as stated: on a genuine sampled transition with
"next" frames present, the code selects action 2 — the arg-max over the legal
moves of the before-frames' last board — while the spec's selection over the
next frames' legal moves yields 15; action 2 is not even legal in the next
frames' last board (it is occupied there). -/
theorem C2_counterexample :
    selected_action netC2a stepC2 = Except.ok 2 ∧
    spec_selected_action netC2a stepC2 = Except.ok 15 ∧
    (2 : Nat) ≠ 15 ∧
    stepC2.next_boards.isSome = true ∧
    ((stepC2.next_boards.getD stepC2.boards).getLast?.map
      (fun tb => decide (2 ∈ tb.2.legal_moves))) = some false := by
  decide

/-- The before-frames' last board in the C2 scenario: the position after just
Black 0, White 1. -/
def tbC2 : Turn × Board := (Turn.black, (play (Game.new 4 99) [0, 1]).board)

/-- Witness for the amended C2 at the concrete sampled transition. -/
theorem C2_witness :
    (2 ∈ tbC2.2.legal_moves) ∧
    (∀ m ∈ tbC2.2.legal_moves,
      netC2a (stepC2.next_boards.getD stepC2.boards) m ≤
        netC2a (stepC2.next_boards.getD stepC2.boards) 2) ∧
    compute_td_target netC2a netC2t (1 / 2) stepC2 =
      Except.ok (stepC2.reward +
        (1 - (if stepC2.game_result.isSome then (1 : ℚ) else 0)) * (1 / 2) *
          netC2t (stepC2.next_boards.getD stepC2.boards) 2) :=
  C2_td_target_formula netC2a netC2t (1 / 2) stepC2 tbC2 2 (by decide) (by decide)

/-- `Tensor::argmax(1, false)` over a row of scores: position of the first
maximal entry. -/
def argmaxFirst (l : List ℚ) : Option Nat :=
  (l.enum.foldl (fun acc p =>
    match acc with
    | none => some p
    | some q => if q.2 < p.2 then some p else some q) none).map Prod.fst

/-- `GomokuDDQNAgent::next_move`: gather the legal columns of the model's
score row (`index_select`), take the arg-max of the gathered tensor, and
return that value — which is the POSITION within the legal-move list, not the
legal move itself. -/
def next_move (scores : Nat → ℚ) (game : Game) : Except Unit Nat :=
  let legal_moves := game.board.legal_moves
  let legal_q_values := legal_moves.map scores
  match argmaxFirst legal_q_values with
  | none => Except.error ()
  | some action => Except.ok action

/-- Scores for the C4 scenario: cell 1 (the first legal move) is best. -/
def scoresC4 : Nat → ℚ := fun i => if i = 1 then 9 else 1

/-- Claim C4 evidence: with Black occupying cell 0 on the 3×3 board, the legal
moves are [1..8]; the model ranks move 1 highest, so the arg-max position is 0
and `next_move` returns 0 — the occupied cell, not a member of the legal-move
list (the intended answer was `legal_moves[0] = 1`). -/
theorem C4_returns_position_not_move :
    next_move scoresC4 g33b0 = Except.ok 0 ∧
    (0 : Nat) ∉ g33b0.board.legal_moves ∧
    g33b0.board.get_cell 0 = some Cell.black ∧
    (1 : Nat) ∈ g33b0.board.legal_moves ∧ scoresC4 1 = 9 := by
  decide

end Gomoku
